import Mathlib

/-!
Verification of the afrisight-backend chat-session store and the
`/predict` route handlers (`src/routes/predict.ts`), against the
repository's natural-language specification.

The TypeScript code is shallowly embedded: the in-memory
`Map<string, ChatSession>` becomes an insertion-ordered association list,
JavaScript `Array.prototype.slice` becomes `jsSlice`, `Date.now()` / JWT
identities become explicit parameters, and the generative-AI call becomes
an opaque string parameter (the handlers never inspect it).
Timestamps are naturals (milliseconds); audio features of tracks are
rationals (only order comparisons occur in the code under study).
-/

namespace AfriSight

/-- `ChatMessage.role` in `predict.ts`: `'user' | 'assistant'`. -/
inductive Role where
  | user
  | assistant
deriving DecidableEq

/-- `interface ChatMessage` in `predict.ts`. -/
structure ChatMessage where
  role : Role
  content : String
  timestamp : Nat
deriving DecidableEq

/-- `interface ChatSession` in `predict.ts`. -/
structure ChatSession where
  id : String
  userId : String
  messages : List ChatMessage
  createdAt : Nat
  lastActivity : Nat
deriving DecidableEq

/-- The module-level `chatSessions : Map<string, ChatSession>`, embedded as an
insertion-ordered association list (JS `Map` preserves insertion order). -/
abbrev Store := List (String × ChatSession)

/-- `chatSessions.get(k)`. -/
def mapGet (store : Store) (k : String) : Option ChatSession :=
  (store.find? (fun e => e.1 == k)).map (·.2)

/-- `chatSessions.set(k, v)` combined with in-place mutation of a stored
session object: an existing key is updated in place (JS `Map.set` keeps the
original position), a fresh key is appended at the end. -/
def mapSet (store : Store) (k : String) (v : ChatSession) : Store :=
  if (store.find? (fun e => e.1 == k)).isSome then
    store.map (fun e => if e.1 == k then (k, v) else e)
  else
    store ++ [(k, v)]

/-- `chatSessions.delete(k)`. -/
def mapDelete (store : Store) (k : String) : Store :=
  store.filter (fun e => !(e.1 == k))

/-- Relative index computation of JS `Array.prototype.slice`:
a negative index counts from the end, clamped to `[0, len]`. -/
def jsRelIndex (i : Int) (len : Nat) : Nat :=
  if i < 0 then len - (-i).toNat else min i.toNat len

/-- JS `arr.slice(start, stop)`. -/
def jsSlice {α : Type} (start stop : Int) (l : List α) : List α :=
  (l.take (jsRelIndex stop l.length)).drop (jsRelIndex start l.length)

/-- JS `arr.slice(start)` (one-argument form: up to the end). -/
def jsSliceFrom {α : Type} (start : Int) (l : List α) : List α :=
  jsSlice start (l.length : Int) l

/-- `` `chat_${userId}_${Date.now()}` `` in the `/chat` handler. -/
def genSessionId (userId : String) (now : Nat) : String :=
  "chat_" ++ userId ++ "_" ++ toString now

/-- The effective session id of a `/chat` request:
`sessionId || generated` (an absent or empty-string body field is falsy). -/
def effectiveSessionId (userId : String) (sidOpt : Option String) (now : Nat) : String :=
  match sidOpt with
  | some sid => if sid == "" then genSessionId userId now else sid
  | none => genSessionId userId now

/-- Lines 786–799 of `predict.ts`: resolve the session id, return the stored
session if present, else create a fresh session (empty messages, owned by the
caller, both timestamps `now`) and insert it. -/
def getOrCreate (store : Store) (userId : String) (sidOpt : Option String) (now : Nat) :
    ChatSession × Store :=
  let currentSessionId := effectiveSessionId userId sidOpt now
  match mapGet store currentSessionId with
  | some s => (s, store)
  | none =>
    let s : ChatSession :=
      { id := currentSessionId, userId := userId, messages := [],
        createdAt := now, lastActivity := now }
    (s, mapSet store currentSessionId s)

/-- The sort comparator `(a, b) => b[1].lastActivity.getTime() - a[1].lastActivity.getTime()`:
most recently active first. -/
def byActivityDesc (a b : String × ChatSession) : Prop :=
  b.2.lastActivity ≤ a.2.lastActivity

instance : DecidableRel byActivityDesc :=
  fun a b => inferInstanceAs (Decidable (b.2.lastActivity ≤ a.2.lastActivity))

instance : IsTotal (String × ChatSession) byActivityDesc :=
  ⟨fun a b => by unfold byActivityDesc; omega⟩

instance : IsTrans (String × ChatSession) byActivityDesc :=
  ⟨fun a b c hab hbc => by unfold byActivityDesc at *; omega⟩

/-- Lines 891–900 of `predict.ts`: the retention sweep run inside each append.
All sessions of the owner are enumerated, sorted by `lastActivity` descending,
and every session beyond the 100th most recent is deleted from the store. -/
def retainLatest (userId : String) (store : Store) : Store :=
  let userSessions :=
    List.insertionSort byActivityDesc (store.filter (fun e => e.2.userId == userId))
  if userSessions.length > 100 then
    let evicted := (userSessions.drop 100).map Prod.fst
    store.filter (fun e => !(evicted.contains e.1))
  else
    store

/-- `session.messages.slice(-10)`: the trailing window used to build the
conversation-history section of the AI prompt. -/
def contextWindow (msgs : List ChatMessage) : List ChatMessage :=
  jsSliceFrom (-10) msgs

/-- The success payload of `POST /predict/chat`: `sessionId`, the AI `message`,
and the `conversation` block; `historyUsed` records which stored messages were
placed into the prompt's CONVERSATION HISTORY section. -/
structure ChatOk where
  sessionId : String
  message : String
  messageCount : Nat
  sessionStarted : Nat
  lastActivity : Nat
  historyUsed : List ChatMessage
deriving DecidableEq

/-- Outcome of `POST /predict/chat`. -/
inductive ChatOutcome where
  | badRequest
  | unauthorized
  | ok (r : ChatOk)
deriving DecidableEq

/-- `POST /predict/chat` (lines 763–937 of `predict.ts`). The generative call
is the opaque parameter `aiResp`; every `new Date()` taken during the request
is the parameter `now`. Returns the HTTP outcome and the store afterwards. -/
def chatStep (store : Store) (uidOpt : Option String) (promptOpt : Option String)
    (sidOpt : Option String) (now : Nat) (aiResp : String) : ChatOutcome × Store :=
  match promptOpt with
  | none => (.badRequest, store)
  | some prompt =>
    if prompt == "" then (.badRequest, store)
    else
      match uidOpt with
      | none => (.unauthorized, store)
      | some userId =>
        let currentSessionId := effectiveSessionId userId sidOpt now
        let gc := getOrCreate store userId sidOpt now
        let session := gc.1
        let store1 := gc.2
        let userMessage : ChatMessage := { role := .user, content := prompt, timestamp := now }
        let session2 : ChatSession :=
          { session with lastActivity := now, messages := session.messages ++ [userMessage] }
        let store2 := mapSet store1 currentSessionId session2
        let history := contextWindow session2.messages
        let assistantMessage : ChatMessage :=
          { role := .assistant, content := aiResp, timestamp := now }
        let session3 : ChatSession :=
          { session2 with messages := session2.messages ++ [assistantMessage] }
        let store3 := mapSet store2 currentSessionId session3
        let store4 := retainLatest userId store3
        (.ok { sessionId := currentSessionId, message := aiResp,
               messageCount := session3.messages.length,
               sessionStarted := session3.createdAt,
               lastActivity := session3.lastActivity,
               historyUsed := history }, store4)

/-- `Math.min(parseInt(c.req.query('limit') || '50'), 100)` (lines 15 and 956):
the parsed limit defaults to 50 when absent and is clamped from above by 100. -/
def effLimit (limitQ : Option Int) : Int :=
  min (limitQ.getD 50) 100

/-- One element of the session list returned by `GET /predict/chat/history`
without a `sessionId`. -/
structure SessionSummary where
  sessionId : String
  messageCount : Nat
  lastMessage : String
  createdAt : Nat
  lastActivity : Nat
deriving DecidableEq

/-- The summary built per session in the list branch; the preview is
`messages[len-1]?.content.substring(0, 100) + '...'` (JS renders the chain as
`"undefined"` when the session has no messages). -/
def summaryOf (e : String × ChatSession) : SessionSummary :=
  { sessionId := e.1
    messageCount := e.2.messages.length
    lastMessage :=
      (match e.2.messages.getLast? with
       | some m => m.content.take 100
       | none => "undefined") ++ "..."
    createdAt := e.2.createdAt
    lastActivity := e.2.lastActivity }

/-- Outcome of `GET /predict/chat/history`. -/
inductive HistoryOutcome where
  | unauthorized
  | notFound
  | transcript (sessionId : String) (messages : List ChatMessage)
      (messageCount : Nat) (createdAt : Nat) (lastActivity : Nat)
  | sessionList (sessions : List SessionSummary)
deriving DecidableEq

/-- `GET /predict/chat/history` (lines 943–1005 of `predict.ts`). -/
def historyStep (store : Store) (uidOpt : Option String) (sidQ : Option String)
    (limitQ : Option Int) : HistoryOutcome :=
  match uidOpt with
  | none => .unauthorized
  | some userId =>
    let limit := effLimit limitQ
    let sidEff : Option String :=
      match sidQ with
      | some s => if s == "" then none else some s
      | none => none
    match sidEff with
    | some sessionId =>
      match mapGet store sessionId with
      | some session =>
        if session.userId == userId then
          .transcript sessionId (jsSliceFrom (-limit) session.messages)
            session.messages.length session.createdAt session.lastActivity
        else .notFound
      | none => .notFound
    | none =>
      let userSessions :=
        jsSlice 0 20
          (List.insertionSort byActivityDesc (store.filter (fun e => e.2.userId == userId)))
      .sessionList (userSessions.map summaryOf)

/-- Outcome of `DELETE /predict/chat/session`. -/
inductive DeleteOutcome where
  | unauthorized
  | badRequest
  | notFound
  | success
deriving DecidableEq

/-- `DELETE /predict/chat/session` (lines 1011–1054 of `predict.ts`). -/
def deleteStep (store : Store) (uidOpt : Option String) (sidOpt : Option String) :
    DeleteOutcome × Store :=
  match uidOpt with
  | none => (.unauthorized, store)
  | some userId =>
    let sidEff : Option String :=
      match sidOpt with
      | some s => if s == "" then none else some s
      | none => none
    match sidEff with
    | none => (.badRequest, store)
    | some sessionId =>
      match mapGet store sessionId with
      | some session =>
        if session.userId == userId then (.success, mapDelete store sessionId)
        else (.notFound, store)
      | none => (.notFound, store)

/-- The key list of the store; JS `Map` keys are pairwise distinct, which the
theorems below carry as the hypothesis `(keys store).Nodup`. -/
def keys (store : Store) : List String :=
  store.map Prod.fst

theorem mapGet_eq_none_iff {store : Store} {k : String} :
    mapGet store k = none ↔ ∀ e ∈ store, e.1 ≠ k := by
  simp [mapGet, List.find?_eq_none]

theorem mem_of_mapGet_eq_some {store : Store} {k : String} {v : ChatSession}
    (h : mapGet store k = some v) : (k, v) ∈ store := by
  unfold mapGet at h
  cases hf : store.find? (fun e => e.1 == k) with
  | none => simp [hf] at h
  | some e =>
    have he1 := List.find?_some hf
    have he1' : e.1 = k := by simpa using he1
    have hm : e ∈ store := List.mem_of_find?_eq_some hf
    simp [hf] at h
    have : e = (k, v) := by
      cases e with
      | mk a b =>
        simp only [Prod.mk.injEq]
        exact ⟨he1', by simpa using h⟩
    rwa [this] at hm

theorem mapGet_eq_some_of_mem {store : Store} {k : String} {v : ChatSession}
    (hnd : (keys store).Nodup) (h : (k, v) ∈ store) : mapGet store k = some v := by
  induction store with
  | nil => simp at h
  | cons e t ih =>
    rcases List.mem_cons.mp h with he | ht
    · subst he; simp [mapGet, List.find?_cons_of_pos]
    · have hk : k ∈ keys t := List.mem_map_of_mem Prod.fst ht
      have hne : e.1 ≠ k := by
        intro hek
        have : e.1 ∉ keys t := by
          have := (List.nodup_cons.mp hnd).1
          simpa [keys] using this
        exact this (hek ▸ hk)
      have hnd' : (keys t).Nodup := (List.nodup_cons.mp hnd).2
      have := ih hnd' ht
      simpa [mapGet, List.find?_cons_of_neg, hne] using this

theorem mapGet_eq_some_iff {store : Store} {k : String} {v : ChatSession}
    (hnd : (keys store).Nodup) : mapGet store k = some v ↔ (k, v) ∈ store :=
  ⟨mem_of_mapGet_eq_some, mapGet_eq_some_of_mem hnd⟩

theorem keys_mapSet_of_found {store : Store} {k : String} {v : ChatSession}
    (h : (store.find? (fun e => e.1 == k)).isSome) :
    keys (mapSet store k v) = keys store := by
  unfold mapSet
  rw [if_pos h]
  unfold keys
  rw [List.map_map]
  refine List.map_congr_left ?_
  intro e _
  by_cases hek : e.1 = k
  · simp [Function.comp, hek]
  · simp [Function.comp, hek]

theorem keys_mapSet_of_fresh {store : Store} {k : String} {v : ChatSession}
    (h : ¬ (store.find? (fun e => e.1 == k)).isSome) :
    keys (mapSet store k v) = keys store ++ [k] := by
  unfold mapSet
  rw [if_neg h]
  simp [keys]

theorem nodup_keys_mapSet {store : Store} {k : String} {v : ChatSession}
    (hnd : (keys store).Nodup) : (keys (mapSet store k v)).Nodup := by
  by_cases h : (store.find? (fun e => e.1 == k)).isSome
  · rwa [keys_mapSet_of_found h]
  · rw [keys_mapSet_of_fresh h]
    have hk : k ∉ keys store := by
      intro hmem
      rcases List.mem_map.mp hmem with ⟨e, he, hek⟩
      rw [List.find?_isSome] at h
      exact h ⟨e, he, by simp [hek]⟩
    simp [List.nodup_append, hnd, hk]

theorem nodup_keys_filter {store : Store} (p : String × ChatSession → Bool)
    (hnd : (keys store).Nodup) : (keys (store.filter p)).Nodup :=
  List.Nodup.sublist (List.Sublist.map Prod.fst (List.filter_sublist store)) hnd

theorem mapGet_mapSet_self {store : Store} {k : String} {v : ChatSession} :
    mapGet (mapSet store k v) k = some v := by
  unfold mapSet
  by_cases h : (store.find? (fun e => e.1 == k)).isSome
  · rw [if_pos h]
    induction store with
    | nil => simp at h
    | cons e t ih =>
      by_cases hek : e.1 = k
      · simp [mapGet, List.find?_cons_of_pos, hek]
      · have h' : (t.find? (fun e => e.1 == k)).isSome := by
          simpa [List.find?_cons_of_neg, hek] using h
        have := ih h'
        simpa [mapGet, List.find?_cons_of_neg, hek] using this
  · rw [if_neg h]
    have hnone : store.find? (fun e => e.1 == k) = none := by
      cases hf : store.find? (fun e => e.1 == k) with
      | none => rfl
      | some e => rw [hf] at h; simp at h
    simp [mapGet, List.find?_append, hnone]

theorem find?_key_map_upd {t : Store} {k k' : String} {v : ChatSession} (hne : k' ≠ k) :
    List.find? (fun e => e.1 == k')
        (t.map (fun e => if e.1 == k then (k, v) else e)) =
      List.find? (fun e => e.1 == k') t := by
  induction t with
  | nil => rfl
  | cons e t ih =>
    by_cases hek : e.1 = k
    · have h1 : ((if e.1 == k then (k, v) else e) : String × ChatSession) = (k, v) := by
        simp [hek]
      have h2 : ((k, v).1 == k') = false := beq_eq_false_iff_ne.mpr (fun h => hne h.symm)
      have h3 : (e.1 == k') = false := by
        rw [hek]; exact beq_eq_false_iff_ne.mpr (fun h => hne h.symm)
      simp only [List.map_cons, h1, List.find?, h2, h3]
      exact ih
    · have h1 : ((if e.1 == k then (k, v) else e) : String × ChatSession) = e := by
        simp [hek]
      simp only [List.map_cons, h1, List.find?]
      cases hk' : (e.1 == k') with
      | true => rfl
      | false => exact ih

theorem mapGet_mapSet_ne {store : Store} {k k' : String} {v : ChatSession}
    (hne : k' ≠ k) : mapGet (mapSet store k v) k' = mapGet store k' := by
  unfold mapSet
  by_cases h : (store.find? (fun e => e.1 == k)).isSome
  · rw [if_pos h]
    unfold mapGet
    rw [find?_key_map_upd hne]
  · rw [if_neg h]
    have hsingle : List.find? (fun e : String × ChatSession => e.1 == k') [(k, v)] = none := by
      have : (k == k') = false := beq_eq_false_iff_ne.mpr (fun h => hne h.symm)
      simp [List.find?, this]
    simp [mapGet, List.find?_append, hsingle]

theorem mapGet_mapDelete_self {store : Store} {k : String} :
    mapGet (mapDelete store k) k = none := by
  rw [mapGet_eq_none_iff]
  intro e he
  have := (List.mem_filter.mp he).2
  simpa using this

theorem mapGet_mapDelete_ne {store : Store} {k k' : String} (hne : k' ≠ k) :
    mapGet (mapDelete store k) k' = mapGet store k' := by
  unfold mapDelete mapGet
  induction store with
  | nil => rfl
  | cons e t ih =>
    by_cases hek : e.1 = k
    · have h3 : (e.1 == k') = false := by
        rw [hek]; exact beq_eq_false_iff_ne.mpr (fun h => hne h.symm)
      have hfk : (!(e.1 == k)) = false := by simp [hek]
      simp only [List.filter_cons, hfk, if_neg Bool.false_ne_true, List.find?, h3]
      exact ih
    · have hfk : (!(e.1 == k)) = true := by simp [hek]
      simp only [List.filter_cons, hfk, if_pos rfl, List.find?]
      cases hk' : (e.1 == k') with
      | true => rfl
      | false => exact ih

theorem mapGet_filter_eq_some {store : Store} {p : String × ChatSession → Bool}
    {k : String} {v : ChatSession} (hnd : (keys store).Nodup)
    (h : mapGet (store.filter p) k = some v) : mapGet store k = some v := by
  have hm : (k, v) ∈ store.filter p := mem_of_mapGet_eq_some h
  exact mapGet_eq_some_of_mem hnd (List.mem_filter.mp hm).1

theorem nodup_keys_retainLatest {uid : String} {store : Store}
    (hnd : (keys store).Nodup) : (keys (retainLatest uid store)).Nodup := by
  unfold retainLatest
  dsimp only
  split
  · exact nodup_keys_filter _ hnd
  · exact hnd

theorem mapGet_retainLatest_some {uid : String} {store : Store} {k : String}
    {v : ChatSession} (hnd : (keys store).Nodup)
    (h : mapGet (retainLatest uid store) k = some v) : mapGet store k = some v := by
  unfold retainLatest at h
  dsimp only at h
  split at h
  · exact mapGet_filter_eq_some hnd h
  · exact h

/-- `danceability: number | number[]` in `SpotifyAfroTrack` (`loaddata.ts`). -/
inductive DanceVal where
  | scalar (q : ℚ)
  | arr (qs : List ℚ)
deriving DecidableEq

/-- `Array.isArray(track.danceability) ? track.danceability[0] : track.danceability`;
indexing an empty array yields JS `undefined` (here `none`), whose numeric
comparisons are all false. -/
def danceOf : DanceVal → Option ℚ
  | .scalar q => some q
  | .arr qs => qs.head?

/-- The fields of `SpotifyAfroTrack` used by the `/predict` handlers. -/
structure AfroTrack where
  name : String
  artist : String
  album : String
  popularity : ℚ
  energy : ℚ
  danceability : DanceVal
  tempo : ℚ
deriving DecidableEq

/-- The six query-parameter bounds of `GET /predict/genre-trends`
(defaults 0/1, 0/1, 0/300 after `parseFloat`). -/
structure GenreFilter where
  minEnergy : ℚ
  maxEnergy : ℚ
  minDanceability : ℚ
  maxDanceability : ℚ
  minTempo : ℚ
  maxTempo : ℚ
deriving DecidableEq

/-- The filter predicate of lines 554–559 of `predict.ts`. -/
def trackMatches (f : GenreFilter) (t : AfroTrack) : Bool :=
  match danceOf t.danceability with
  | some d =>
    decide (f.minEnergy ≤ t.energy) && decide (t.energy ≤ f.maxEnergy) &&
    decide (f.minDanceability ≤ d) && decide (d ≤ f.maxDanceability) &&
    decide (f.minTempo ≤ t.tempo) && decide (t.tempo ≤ f.maxTempo)
  | none => false

/-- Outcome of `GET /predict/genre-trends`, keeping the list of tracks the
analysis was computed over. -/
inductive GenreOutcome where
  | notFound
  | ok (tracksAnalyzed : List AfroTrack)
deriving DecidableEq

/-- `GET /predict/genre-trends` (lines 539–567 of `predict.ts`): filter all
Afro tracks by the audio-feature bounds, cut with `.slice(0, limit)` where
`limit = Math.min(parseInt(... || '50'), 100)`, and 404 when empty. -/
def genreTrends (tracks : List AfroTrack) (f : GenreFilter) (limitQ : Option Int) :
    GenreOutcome :=
  let limit := effLimit limitQ
  let filteredTracks := jsSlice 0 limit (tracks.filter (trackMatches f))
  if filteredTracks.isEmpty then .notFound else .ok filteredTracks

/-- The sort comparator `(a, b) => b.popularity - a.popularity` of
`getTopAfroTracks` (`loaddata.ts`). -/
def byPopularityDesc (a b : AfroTrack) : Prop :=
  b.popularity ≤ a.popularity

instance : DecidableRel byPopularityDesc :=
  fun a b => inferInstanceAs (Decidable (b.popularity ≤ a.popularity))

/-- `dataLoader.getTopAfroTracks(limit)` (`loaddata.ts` lines 290–297):
sort by popularity descending, then `.slice(0, limit)`. -/
def getTopAfroTracks (tracks : List AfroTrack) (limit : Int) : List AfroTrack :=
  jsSlice 0 limit (List.insertionSort byPopularityDesc tracks)

/-- The tracks `GET /predict/trends` hands to the analysis for a given `limit`
query: `aiPredictiveAnalysis.generateTrendAnalysis(limit)` calls
`getTopAfroTracks(limit)` with the clamped limit of line 15. -/
def trendsTracksUsed (tracks : List AfroTrack) (limitQ : Option Int) : List AfroTrack :=
  getTopAfroTracks tracks (effLimit limitQ)

/-- The three session-store operations exposed over HTTP, with their request
parameters. -/
inductive Op where
  | chat (uidOpt promptOpt sidOpt : Option String) (now : Nat) (aiResp : String)
  | history (uidOpt sidQ : Option String) (limitQ : Option Int)
  | del (uidOpt sidOpt : Option String)

/-- The store after handling one request (`GET /chat/history` never writes). -/
def applyOp (op : Op) (store : Store) : Store :=
  match op with
  | .chat u p s n a => (chatStep store u p s n a).2
  | .history _ _ _ => store
  | .del u s => (deleteStep store u s).2

/-- The `Date.now()` value a request observes (only `/chat` reads the clock). -/
def opNow : Op → Option Nat
  | .chat _ _ _ n _ => some n
  | _ => none

/-- Projection of the list branch of `GET /predict/chat/history`. -/
def summariesOf : HistoryOutcome → Option (List SessionSummary)
  | .sessionList l => some l
  | _ => none

/-- Projection of the single-session branch of `GET /predict/chat/history`. -/
def transcriptMessages : HistoryOutcome → Option (List ChatMessage)
  | .transcript _ msgs _ _ _ => some msgs
  | _ => none

/-- Projection of the success branch of `GET /predict/genre-trends`. -/
def includedTracks : GenreOutcome → Option (List AfroTrack)
  | .ok l => some l
  | .notFound => none

theorem jsSliceFrom_neg {α : Type} {e : Int} (he : 0 < e) (l : List α) :
    jsSliceFrom (-e) l = l.drop (l.length - e.toNat) := by
  unfold jsSliceFrom jsSlice jsRelIndex
  have h1 : ¬ ((l.length : Int) < 0) := by omega
  have h2 : (-e) < 0 := by omega
  have h3 : (Int.ofNat l.length).toNat = l.length := rfl
  simp only [if_neg h1, if_pos h2, Int.neg_neg, h3, Int.toNat_ofNat, min_self,
    List.take_length]

theorem length_jsSliceFrom_neg {α : Type} {e : Int} (he : 0 < e) (l : List α) :
    (jsSliceFrom (-e) l).length = min e.toNat l.length := by
  rw [jsSliceFrom_neg he, List.length_drop]
  omega

theorem jsSlice_zero {α : Type} (stop : Int) (l : List α) :
    jsSlice 0 stop l = l.take (jsRelIndex stop l.length) := by
  unfold jsSlice jsRelIndex
  norm_num

theorem length_jsSlice_zero_le {α : Type} {stop : Int} (hstop : 0 ≤ stop) (l : List α) :
    (jsSlice 0 stop l).length ≤ stop.toNat := by
  rw [jsSlice_zero, List.length_take]
  unfold jsRelIndex
  split
  · omega
  · omega

theorem contextWindow_eq (msgs : List ChatMessage) :
    contextWindow msgs = msgs.drop (msgs.length - 10) :=
  jsSliceFrom_neg (by norm_num) msgs

theorem length_contextWindow (msgs : List ChatMessage) :
    (contextWindow msgs).length = min 10 msgs.length := by
  rw [contextWindow_eq, List.length_drop]
  omega

theorem contextWindow_suffix (msgs : List ChatMessage) :
    List.IsSuffix (contextWindow msgs) msgs := by
  rw [contextWindow_eq]
  exact List.drop_suffix _ _

/-- Decimal value of one digit character, inverse of `Nat.digitChar` below 10. -/
def digitVal (c : Char) : Nat :=
  c.toNat - 48

/-- Numeric value of a decimal digit string (big-endian, as produced by
`Nat.toDigits 10`). -/
def decValChars (l : List Char) : Nat :=
  l.foldl (fun a c => 10 * a + digitVal c) 0

theorem digitVal_digitChar {m : Nat} (h : m < 10) :
    digitVal (Nat.digitChar m) = m := by
  interval_cases m <;> rfl

theorem decValChars_append_singleton (l : List Char) (c : Char) :
    decValChars (l ++ [c]) = 10 * decValChars l + digitVal c := by
  unfold decValChars
  rw [List.foldl_append]
  rfl

theorem toDigitsCore_fuel_eq :
    ∀ (f1 f2 n : Nat) (acc : List Char), n < f1 → n < f2 →
      Nat.toDigitsCore 10 f1 n acc = Nat.toDigitsCore 10 f2 n acc := by
  intro f1
  induction f1 with
  | zero => intro f2 n acc h1; omega
  | succ f1 ih =>
    intro f2 n acc h1 h2
    cases f2 with
    | zero => omega
    | succ f2 =>
      simp only [Nat.toDigitsCore]
      by_cases hdiv : n / 10 = 0
      · simp [hdiv]
      · have hn : 0 < n := by
          rcases Nat.eq_zero_or_pos n with h | h
          · exact absurd (by simp [h]) hdiv
          · exact h
        have hlt : n / 10 < n := Nat.div_lt_self hn (by norm_num)
        simp only [if_neg hdiv]
        exact ih f2 (n / 10) _ (by omega) (by omega)

theorem toDigitsCore_acc :
    ∀ (f n : Nat) (acc : List Char), n < f →
      Nat.toDigitsCore 10 f n acc = Nat.toDigitsCore 10 f n [] ++ acc := by
  intro f
  induction f with
  | zero => intro n acc h; omega
  | succ f ih =>
    intro n acc h
    simp only [Nat.toDigitsCore]
    by_cases hdiv : n / 10 = 0
    · simp [hdiv]
    · have hn : 0 < n := by
        rcases Nat.eq_zero_or_pos n with h0 | h0
        · exact absurd (by simp [h0]) hdiv
        · exact h0
      have hlt : n / 10 < n := Nat.div_lt_self hn (by norm_num)
      simp only [if_neg hdiv]
      rw [ih (n / 10) _ (by omega), ih (n / 10) [Nat.digitChar (n % 10)] (by omega),
        List.append_assoc]
      rfl

theorem decValChars_toDigits (n : Nat) : decValChars (Nat.toDigits 10 n) = n := by
  induction n using Nat.strong_induction_on with
  | _ n ih =>
    unfold Nat.toDigits
    simp only [Nat.toDigitsCore]
    by_cases hdiv : n / 10 = 0
    · have hlt : n < 10 := by
        rcases Nat.lt_or_ge n 10 with h | h
        · exact h
        · exact absurd hdiv (by
            have : 0 < n / 10 := Nat.div_pos h (by norm_num)
            omega)
      have hmod : n % 10 = n := Nat.mod_eq_of_lt hlt
      simp only [if_pos hdiv]
      show decValChars ([] ++ [Nat.digitChar (n % 10)]) = n
      rw [decValChars_append_singleton, digitVal_digitChar (Nat.mod_lt n (by norm_num))]
      simp [decValChars, hmod]
    · have hn : 0 < n := by
        rcases Nat.eq_zero_or_pos n with h0 | h0
        · exact absurd (by simp [h0]) hdiv
        · exact h0
      have hlt : n / 10 < n := Nat.div_lt_self hn (by norm_num)
      simp only [if_neg hdiv]
      rw [toDigitsCore_acc n (n / 10) _ (by omega),
        toDigitsCore_fuel_eq n (n / 10 + 1) (n / 10) [] (by omega) (by omega)]
      rw [decValChars_append_singleton, digitVal_digitChar (Nat.mod_lt n (by norm_num))]
      have := ih (n / 10) hlt
      unfold Nat.toDigits at this
      rw [this]
      omega

theorem repr_injective : Function.Injective Nat.repr := by
  intro a b h
  have hdig : Nat.toDigits 10 a = Nat.toDigits 10 b := congrArg String.data h
  have := decValChars_toDigits a
  rw [hdig, decValChars_toDigits b] at this
  omega

theorem genSessionId_inj_time {u : String} {t1 t2 : Nat}
    (h : genSessionId u t1 = genSessionId u t2) : t1 = t2 := by
  unfold genSessionId at h
  have h' : ("chat_" ++ u ++ "_") ++ Nat.repr t1 = ("chat_" ++ u ++ "_") ++ Nat.repr t2 := by
    simpa [String.append_assoc] using h
  have hdata := congrArg String.data h'
  simp only [String.data_append] at hdata
  have hrepr : (Nat.repr t1).data = (Nat.repr t2).data := List.append_cancel_left hdata
  exact repr_injective (String.ext hrepr)

theorem digitChar_ne_underscore {m : Nat} (h : m < 10) : Nat.digitChar m ≠ '_' := by
  interval_cases m <;> decide

theorem toDigitsCore_ne_underscore :
    ∀ (f n : Nat) (acc : List Char), (∀ c ∈ acc, c ≠ '_') →
      ∀ c ∈ Nat.toDigitsCore 10 f n acc, c ≠ '_' := by
  intro f
  induction f with
  | zero =>
    intro n acc hacc
    simpa [Nat.toDigitsCore] using hacc
  | succ f ih =>
    intro n acc hacc
    have hd : ∀ c ∈ Nat.digitChar (n % 10) :: acc, c ≠ '_' := by
      intro c hc
      rcases List.mem_cons.mp hc with rfl | hc
      · exact digitChar_ne_underscore (Nat.mod_lt n (by norm_num))
      · exact hacc c hc
    simp only [Nat.toDigitsCore]
    by_cases hdiv : n / 10 = 0
    · simpa [hdiv] using hd
    · simp only [if_neg hdiv]
      exact ih (n / 10) _ hd

/-- The decimal digits of `Nat.repr` never contain the id separator `'_'`,
so the last underscore of a generated session id marks where the timestamp
starts. -/
theorem repr_ne_underscore (n : Nat) : '_' ∉ (Nat.repr n).data := by
  intro hmem
  exact toDigitsCore_ne_underscore (n + 1) n [] (by simp) '_' hmem rfl

theorem append_marker_inj :
    ∀ (p1 p2 s1 s2 : List Char), '_' ∉ p1 → '_' ∉ p2 →
      p1 ++ '_' :: s1 = p2 ++ '_' :: s2 → p1 = p2 ∧ s1 = s2 := by
  intro p1
  induction p1 with
  | nil =>
    intro p2 s1 s2 hp1 hp2 h
    cases p2 with
    | nil =>
      simp only [List.nil_append] at h
      exact ⟨rfl, (List.cons.inj h).2⟩
    | cons c p2' =>
      simp only [List.nil_append, List.cons_append] at h
      exact absurd (List.mem_cons.mpr (Or.inl (List.cons.inj h).1)) hp2
  | cons c1 p1' ih =>
    intro p2 s1 s2 hp1 hp2 h
    cases p2 with
    | nil =>
      simp only [List.nil_append, List.cons_append] at h
      exact absurd (List.mem_cons.mpr (Or.inl (List.cons.inj h).1.symm)) hp1
    | cons c2 p2' =>
      simp only [List.cons_append] at h
      obtain ⟨hc, ht⟩ := List.cons.inj h
      have hp1'' : '_' ∉ p1' := fun hm => hp1 (List.mem_cons_of_mem _ hm)
      have hp2'' : '_' ∉ p2' := fun hm => hp2 (List.mem_cons_of_mem _ hm)
      obtain ⟨hpe, hse⟩ := ih p2' s1 s2 hp1'' hp2'' ht
      exact ⟨by rw [hc, hpe], hse⟩

/-- Full injectivity of the generated id `chat_${userId}_${Date.now()}`: two
generated ids coincide only for the same user AND the same millisecond (the
timestamp suffix contains no underscore, so the split at the last underscore
is unambiguous). -/
theorem genSessionId_inj {u1 u2 : String} {t1 t2 : Nat}
    (h : genSessionId u1 t1 = genSessionId u2 t2) : u1 = u2 ∧ t1 = t2 := by
  unfold genSessionId at h
  have hdata := congrArg String.data h
  have hm : ("_" : String).data = ['_'] := rfl
  simp only [String.data_append, hm, List.append_assoc, List.singleton_append] at hdata
  have hcancel := List.append_cancel_left hdata
  have hrev := congrArg List.reverse hcancel
  simp only [List.reverse_append, List.reverse_cons, List.append_assoc,
    List.singleton_append] at hrev
  have hp1 : '_' ∉ (Nat.repr t1).data.reverse := by
    rw [List.mem_reverse]
    exact repr_ne_underscore t1
  have hp2 : '_' ∉ (Nat.repr t2).data.reverse := by
    rw [List.mem_reverse]
    exact repr_ne_underscore t2
  obtain ⟨hd, hus⟩ := append_marker_inj _ _ _ _ hp1 hp2 hrev
  constructor
  · have hu := congrArg List.reverse hus
    simp only [List.reverse_reverse] at hu
    exact String.ext hu
  · have hdd := congrArg List.reverse hd
    simp only [List.reverse_reverse] at hdd
    exact repr_injective (String.ext hdd)

theorem getOrCreate_of_found {store : Store} {uid : String} {sidOpt : Option String}
    {now : Nat} {s : ChatSession}
    (h : mapGet store (effectiveSessionId uid sidOpt now) = some s) :
    getOrCreate store uid sidOpt now = (s, store) := by
  unfold getOrCreate
  dsimp only
  rw [h]

theorem getOrCreate_of_fresh {store : Store} {uid : String} {sidOpt : Option String}
    {now : Nat} (h : mapGet store (effectiveSessionId uid sidOpt now) = none) :
    getOrCreate store uid sidOpt now =
      (⟨effectiveSessionId uid sidOpt now, uid, [], now, now⟩,
        mapSet store (effectiveSessionId uid sidOpt now)
          ⟨effectiveSessionId uid sidOpt now, uid, [], now, now⟩) := by
  unfold getOrCreate
  dsimp only
  rw [h]

theorem nodup_keys_getOrCreate {store : Store} {uid : String} {sidOpt : Option String}
    {now : Nat} (hnd : (keys store).Nodup) :
    (keys (getOrCreate store uid sidOpt now).2).Nodup := by
  unfold getOrCreate
  dsimp only
  cases h : mapGet store (effectiveSessionId uid sidOpt now) with
  | some s => exact hnd
  | none => exact nodup_keys_mapSet hnd

theorem mapGet_getOrCreate_ne {store : Store} {uid : String} {sidOpt : Option String}
    {now : Nat} {k : String} (hne : k ≠ effectiveSessionId uid sidOpt now) :
    mapGet (getOrCreate store uid sidOpt now).2 k = mapGet store k := by
  unfold getOrCreate
  dsimp only
  cases h : mapGet store (effectiveSessionId uid sidOpt now) with
  | some s => rfl
  | none => exact mapGet_mapSet_ne hne

theorem chatStep_eq (store : Store) (uid prompt : String) (sidOpt : Option String)
    (now : Nat) (ai : String) (hp : prompt ≠ "") :
    chatStep store (some uid) (some prompt) sidOpt now ai =
      (.ok { sessionId := effectiveSessionId uid sidOpt now
             message := ai
             messageCount :=
               ((getOrCreate store uid sidOpt now).1.messages ++
                 [(⟨.user, prompt, now⟩ : ChatMessage), ⟨.assistant, ai, now⟩]).length
             sessionStarted := (getOrCreate store uid sidOpt now).1.createdAt
             lastActivity := now
             historyUsed :=
               contextWindow ((getOrCreate store uid sidOpt now).1.messages ++
                 [(⟨.user, prompt, now⟩ : ChatMessage)]) },
       retainLatest uid
         (mapSet
           (mapSet (getOrCreate store uid sidOpt now).2 (effectiveSessionId uid sidOpt now)
             { (getOrCreate store uid sidOpt now).1 with
                 lastActivity := now
                 messages := (getOrCreate store uid sidOpt now).1.messages ++
                   [(⟨.user, prompt, now⟩ : ChatMessage)] })
           (effectiveSessionId uid sidOpt now)
           { (getOrCreate store uid sidOpt now).1 with
               lastActivity := now
               messages := ((getOrCreate store uid sidOpt now).1.messages ++
                 [(⟨.user, prompt, now⟩ : ChatMessage)]) ++
                 [(⟨.assistant, ai, now⟩ : ChatMessage)] })) := by
  have h1 : (prompt == "") = false := beq_eq_false_iff_ne.mpr hp
  simp only [chatStep, h1, Bool.false_eq_true, if_false, List.append_assoc,
    List.cons_append, List.nil_append]

/-- The message list stored under a session id before a request (empty when
the id is not in the store); shorthand for stating windowing and retention
facts about `chatStep`. -/
def priorMessages (store : Store) (cid : String) : List ChatMessage :=
  match mapGet store cid with
  | some s => s.messages
  | none => []

theorem mapGet_retain_set_self {st : Store} {uid cid : String} {v : ChatSession}
    (hnd : (keys st).Nodup) {s' : ChatSession}
    (h : mapGet (retainLatest uid (mapSet st cid v)) cid = some s') : s' = v := by
  have hnd2 : (keys (mapSet st cid v)).Nodup := nodup_keys_mapSet hnd
  have h2 := mapGet_retainLatest_some hnd2 h
  rw [mapGet_mapSet_self] at h2
  exact (Option.some.injEq _ _).mp h2.symm

theorem getOrCreate_fst_messages (store : Store) (uid : String) (sidOpt : Option String)
    (now : Nat) :
    (getOrCreate store uid sidOpt now).1.messages =
      priorMessages store (effectiveSessionId uid sidOpt now) := by
  unfold getOrCreate priorMessages
  dsimp only
  cases mapGet store (effectiveSessionId uid sidOpt now) with
  | some s => rfl
  | none => rfl

/-- C7: a successful `/chat` request builds its conversation-history context
from exactly the trailing `min 10 (n+1)` messages of the session (the prior
messages plus the just-appended user message), while the session stored after
the request keeps the full, untruncated history extended by the new user and
assistant messages. -/
theorem context_window
    (store : Store) (uid prompt : String) (sidOpt : Option String) (now : Nat)
    (ai : String) (hp : prompt ≠ "") (hnd : (keys store).Nodup) :
    ∃ r : ChatOk,
      (chatStep store (some uid) (some prompt) sidOpt now ai).1 = .ok r
      ∧ List.IsSuffix r.historyUsed
          (priorMessages store (effectiveSessionId uid sidOpt now) ++
            [⟨.user, prompt, now⟩])
      ∧ r.historyUsed.length =
          min 10 ((priorMessages store (effectiveSessionId uid sidOpt now)).length + 1)
      ∧ ∀ s', mapGet (chatStep store (some uid) (some prompt) sidOpt now ai).2
            (effectiveSessionId uid sidOpt now) = some s' →
          s'.messages = priorMessages store (effectiveSessionId uid sidOpt now) ++
            [⟨.user, prompt, now⟩, ⟨.assistant, ai, now⟩] := by
  rw [chatStep_eq store uid prompt sidOpt now ai hp]
  refine ⟨_, rfl, ?_, ?_, ?_⟩
  · rw [getOrCreate_fst_messages]
    exact contextWindow_suffix _
  · rw [getOrCreate_fst_messages, length_contextWindow, List.length_append,
      List.length_cons, List.length_nil]
  · intro s' h
    have hv := mapGet_retain_set_self
      (nodup_keys_mapSet (nodup_keys_getOrCreate hnd)) h
    rw [hv]
    dsimp only
    rw [getOrCreate_fst_messages, List.append_assoc]
    rfl

theorem context_window_witness :
    ∃ r : ChatOk,
      (chatStep [("s", ⟨"s", "u", List.replicate 11 ⟨.user, "m", 0⟩, 0, 0⟩)]
          (some "u") (some "p") (some "s") 1 "r").1 = .ok r
      ∧ List.IsSuffix r.historyUsed
          (priorMessages [("s", ⟨"s", "u", List.replicate 11 ⟨.user, "m", 0⟩, 0, 0⟩)]
            (effectiveSessionId "u" (some "s") 1) ++ [⟨.user, "p", 1⟩])
      ∧ r.historyUsed.length =
          min 10 ((priorMessages [("s", ⟨"s", "u", List.replicate 11 ⟨.user, "m", 0⟩, 0, 0⟩)]
            (effectiveSessionId "u" (some "s") 1)).length + 1)
      ∧ ∀ s', mapGet (chatStep [("s", ⟨"s", "u", List.replicate 11 ⟨.user, "m", 0⟩, 0, 0⟩)]
            (some "u") (some "p") (some "s") 1 "r").2
            (effectiveSessionId "u" (some "s") 1) = some s' →
          s'.messages = priorMessages [("s", ⟨"s", "u", List.replicate 11 ⟨.user, "m", 0⟩, 0, 0⟩)]
            (effectiveSessionId "u" (some "s") 1) ++
            [⟨.user, "p", 1⟩, ⟨.assistant, "r", 1⟩] :=
  context_window [("s", ⟨"s", "u", List.replicate 11 ⟨.user, "m", 0⟩, 0, 0⟩)]
    "u" "p" (some "s") 1 "r" (by decide) (by decide)

/-- C2: for every stored session and every requester other than its owner,
`GET /predict/chat/history?sessionId=...` and `DELETE /predict/chat/session`
both yield the 404 NotFound outcome (with the store untouched on delete), and
this outcome coincides with the outcome for a session id absent from the
store, so ownership is not distinguishable from absence. -/
theorem ownership_isolation
    (store : Store) (requester sid sidAbsent : String) (s : ChatSession)
    (limitQ : Option Int)
    (hs : mapGet store sid = some s) (hown : s.userId ≠ requester)
    (hsid : sid ≠ "") (habsent : mapGet store sidAbsent = none)
    (habsent' : sidAbsent ≠ "") :
    historyStep store (some requester) (some sid) limitQ = .notFound
    ∧ deleteStep store (some requester) (some sid) = (.notFound, store)
    ∧ historyStep store (some requester) (some sidAbsent) limitQ = .notFound
    ∧ deleteStep store (some requester) (some sidAbsent) = (.notFound, store) := by
  have h1 : (sid == "") = false := beq_eq_false_iff_ne.mpr hsid
  have h2 : (s.userId == requester) = false := beq_eq_false_iff_ne.mpr hown
  have h3 : (sidAbsent == "") = false := beq_eq_false_iff_ne.mpr habsent'
  refine ⟨?_, ?_, ?_, ?_⟩
  · simp [historyStep, h1, h2, hs]
  · simp [deleteStep, h1, h2, hs]
  · simp [historyStep, h3, habsent]
  · simp [deleteStep, h3, habsent]

theorem ownership_isolation_witness :
    historyStep [("a", ⟨"a", "owner", [], 0, 0⟩)] (some "other") (some "a") none = .notFound
    ∧ deleteStep [("a", ⟨"a", "owner", [], 0, 0⟩)] (some "other") (some "a") =
        (.notFound, [("a", ⟨"a", "owner", [], 0, 0⟩)])
    ∧ historyStep [("a", ⟨"a", "owner", [], 0, 0⟩)] (some "other") (some "b") none = .notFound
    ∧ deleteStep [("a", ⟨"a", "owner", [], 0, 0⟩)] (some "other") (some "b") =
        (.notFound, [("a", ⟨"a", "owner", [], 0, 0⟩)]) :=
  ownership_isolation [("a", ⟨"a", "owner", [], 0, 0⟩)] "other" "a" "b"
    ⟨"a", "owner", [], 0, 0⟩ none (by decide) (by decide) (by decide) (by decide)
    (by decide)

theorem mapSet_of_absent {store : Store} {k : String} {v : ChatSession}
    (h : mapGet store k = none) : mapSet store k v = store ++ [(k, v)] := by
  have hf : store.find? (fun e => e.1 == k) = none := by
    unfold mapGet at h
    exact Option.map_eq_none.mp h
  unfold mapSet
  rw [hf]
  rfl

/-- C4 counterexample: with no `sessionId` supplied, the generated id
`chat_u_5` collides with a stored session created by a DIFFERENT user `w`;
get-or-create returns that foreign session (two messages, owner `w`,
`createdAt` 0) and inserts nothing, contradicting "a new session is inserted
with an empty message list, ownerId equal to the caller's identity, and
createdAt/lastActivity set to now". -/
theorem get_or_create_counterexample :
    getOrCreate [("chat_u_5", ⟨"chat_u_5", "w", [⟨.user, "x", 0⟩, ⟨.assistant, "y", 0⟩], 0, 0⟩)]
        "u" none 5 =
      (⟨"chat_u_5", "w", [⟨.user, "x", 0⟩, ⟨.assistant, "y", 0⟩], 0, 0⟩,
        [("chat_u_5", ⟨"chat_u_5", "w", [⟨.user, "x", 0⟩, ⟨.assistant, "y", 0⟩], 0, 0⟩)])
    ∧ ¬ ((getOrCreate
        [("chat_u_5", ⟨"chat_u_5", "w", [⟨.user, "x", 0⟩, ⟨.assistant, "y", 0⟩], 0, 0⟩)]
        "u" none 5).1.messages = [])
    ∧ ¬ ((getOrCreate
        [("chat_u_5", ⟨"chat_u_5", "w", [⟨.user, "x", 0⟩, ⟨.assistant, "y", 0⟩], 0, 0⟩)]
        "u" none 5).1.userId = "u") := by
  refine ⟨by decide, by decide, by decide⟩

/-- C4 (amended): get-or-create keys on the EFFECTIVE session id (the supplied
one, or the generated `chat_userId_now` when none is supplied). If that id is
absent a fresh session (empty messages, owned by the caller, timestamps `now`)
is appended to the store; if it is present — no matter which identity created
it and with no ownership check — the stored session itself is returned, and a
chat request on it extends it: the response carries the same id, the prior
`createdAt`, and a message count grown by exactly the two new messages. -/
theorem get_or_create_semantics
    (store : Store) (uid : String) (sidOpt : Option String) (now : Nat) :
    (mapGet store (effectiveSessionId uid sidOpt now) = none →
      getOrCreate store uid sidOpt now =
        (⟨effectiveSessionId uid sidOpt now, uid, [], now, now⟩,
          store ++ [(effectiveSessionId uid sidOpt now,
            ⟨effectiveSessionId uid sidOpt now, uid, [], now, now⟩)]))
    ∧ (∀ s0, mapGet store (effectiveSessionId uid sidOpt now) = some s0 →
        getOrCreate store uid sidOpt now = (s0, store))
    ∧ (∀ s0 prompt ai, prompt ≠ "" →
        mapGet store (effectiveSessionId uid sidOpt now) = some s0 →
        ∃ r : ChatOk, (chatStep store (some uid) (some prompt) sidOpt now ai).1 = .ok r
          ∧ r.sessionId = effectiveSessionId uid sidOpt now
          ∧ r.messageCount = s0.messages.length + 2
          ∧ r.sessionStarted = s0.createdAt) := by
  refine ⟨?_, ?_, ?_⟩
  · intro h
    rw [getOrCreate_of_fresh h, mapSet_of_absent h]
  · intro s0 h
    exact getOrCreate_of_found h
  · intro s0 prompt ai hp h
    rw [chatStep_eq store uid prompt sidOpt now ai hp]
    refine ⟨_, rfl, rfl, ?_, ?_⟩
    · rw [getOrCreate_of_found h]
      simp
    · rw [getOrCreate_of_found h]

theorem get_or_create_semantics_witness :
    getOrCreate [] "u2" (some "s2") 7 =
      (⟨effectiveSessionId "u2" (some "s2") 7, "u2", [], 7, 7⟩,
        [] ++ [(effectiveSessionId "u2" (some "s2") 7,
          ⟨effectiveSessionId "u2" (some "s2") 7, "u2", [], 7, 7⟩)])
    ∧ getOrCreate [("s", ⟨"s", "u1", [⟨.user, "x", 0⟩], 3, 3⟩)] "u2" (some "s") 7 =
        (⟨"s", "u1", [⟨.user, "x", 0⟩], 3, 3⟩, [("s", ⟨"s", "u1", [⟨.user, "x", 0⟩], 3, 3⟩)])
    ∧ ∃ r : ChatOk,
        (chatStep [("s", ⟨"s", "u1", [⟨.user, "x", 0⟩], 3, 3⟩)]
          (some "u2") (some "p") (some "s") 7 "r").1 = .ok r
        ∧ r.sessionId = effectiveSessionId "u2" (some "s") 7
        ∧ r.messageCount = (⟨"s", "u1", [⟨.user, "x", 0⟩], 3, 3⟩ : ChatSession).messages.length + 2
        ∧ r.sessionStarted = (⟨"s", "u1", [⟨.user, "x", 0⟩], 3, 3⟩ : ChatSession).createdAt :=
  ⟨(get_or_create_semantics [] "u2" (some "s2") 7).1 (by decide),
    (get_or_create_semantics [("s", ⟨"s", "u1", [⟨.user, "x", 0⟩], 3, 3⟩)] "u2"
      (some "s") 7).2.1 ⟨"s", "u1", [⟨.user, "x", 0⟩], 3, 3⟩ (by decide),
    (get_or_create_semantics [("s", ⟨"s", "u1", [⟨.user, "x", 0⟩], 3, 3⟩)] "u2"
      (some "s") 7).2.2 ⟨"s", "u1", [⟨.user, "x", 0⟩], 3, 3⟩ "p" "r" (by decide) (by decide)⟩

/-- C8: deleting an owned session succeeds and removes it; an immediately
repeated delete of the same id by the same requester yields NotFound and
leaves the store unchanged. -/
theorem idempotent_delete
    (store : Store) (uid sid : String) (s : ChatSession)
    (hs : mapGet store sid = some s) (hown : s.userId = uid) (hsid : sid ≠ "") :
    deleteStep store (some uid) (some sid) = (.success, mapDelete store sid)
    ∧ mapGet (mapDelete store sid) sid = none
    ∧ deleteStep (mapDelete store sid) (some uid) (some sid) =
        (.notFound, mapDelete store sid) := by
  have h1 : (sid == "") = false := beq_eq_false_iff_ne.mpr hsid
  have h2 : (s.userId == uid) = true := beq_iff_eq.mpr hown
  refine ⟨?_, mapGet_mapDelete_self, ?_⟩
  · simp [deleteStep, h1, hs, h2]
  · simp [deleteStep, h1, mapGet_mapDelete_self]

theorem idempotent_delete_witness :
    deleteStep [("a", ⟨"a", "u", [], 0, 0⟩)] (some "u") (some "a") =
        (.success, mapDelete [("a", ⟨"a", "u", [], 0, 0⟩)] "a")
    ∧ mapGet (mapDelete [("a", ⟨"a", "u", [], 0, 0⟩)] "a") "a" = none
    ∧ deleteStep (mapDelete [("a", ⟨"a", "u", [], 0, 0⟩)] "a") (some "u") (some "a") =
        (.notFound, mapDelete [("a", ⟨"a", "u", [], 0, 0⟩)] "a") :=
  idempotent_delete [("a", ⟨"a", "u", [], 0, 0⟩)] "u" "a" ⟨"a", "u", [], 0, 0⟩
    (by decide) (by decide) (by decide)

/-- A store holding 21 sessions all owned by `"u"`, with distinct ids and
distinct `lastActivity` values. -/
def listStore21 : Store :=
  (List.range 21).map (fun i =>
    ("s" ++ toString i, ⟨"s" ++ toString i, "u", [], i, i⟩))

/-- C5 counterexample: with 21 stored sessions owned by the requester and
`limit = 5`, the list branch of `GET /predict/chat/history` returns 20
summaries — the clamp is the constant `.slice(0, 20)`, not the caller's
`limit` — contradicting "returns up to `limit` session summaries". -/
theorem session_list_counterexample :
    (summariesOf (historyStep listStore21 (some "u") none (some 5))).map List.length =
      some 20
    ∧ ¬ (20 ≤ 5) := by
  refine ⟨by decide, by decide⟩

/-- C5 (amended): the list branch of `GET /predict/chat/history` returns up to
20 session summaries (the `limit` query parameter is not consulted on this
branch; it only truncates the single-session transcript), every summary comes
from a stored session owned by the requester, they are ordered most recently
active first, and each one is the `summaryOf` projection (id, message count,
100-character last-message preview, timestamps) of its session. -/
theorem session_list_semantics (store : Store) (uid : String) (limitQ : Option Int) :
    ∃ l, historyStep store (some uid) none limitQ = .sessionList l
      ∧ l.length ≤ 20
      ∧ (∀ x ∈ l, ∃ e, e ∈ store ∧ e.2.userId = uid ∧ x = summaryOf e)
      ∧ List.Sorted (fun a b => b.lastActivity ≤ a.lastActivity) l := by
  refine ⟨_, rfl, ?_, ?_, ?_⟩
  · rw [List.length_map]
    exact le_trans (length_jsSlice_zero_le (by norm_num) _) (by norm_num)
  · intro x hx
    rcases List.mem_map.mp hx with ⟨e, he, hxe⟩
    rw [jsSlice_zero] at he
    have h1 : e ∈ List.insertionSort byActivityDesc
        (store.filter (fun e => e.2.userId == uid)) := List.mem_of_mem_take he
    have h2 : e ∈ store.filter (fun e => e.2.userId == uid) :=
      (List.perm_insertionSort byActivityDesc _).mem_iff.mp h1
    have h3 := List.mem_filter.mp h2
    exact ⟨e, h3.1, by simpa using h3.2, hxe.symm⟩
  · have hsorted : List.Sorted byActivityDesc
        (List.insertionSort byActivityDesc (store.filter (fun e => e.2.userId == uid))) :=
      List.sorted_insertionSort byActivityDesc _
    have htake : List.Sorted byActivityDesc
        (jsSlice 0 20 (List.insertionSort byActivityDesc
          (store.filter (fun e => e.2.userId == uid)))) := by
      rw [jsSlice_zero]
      exact List.Pairwise.sublist (List.take_sublist _ _) hsorted
    exact List.Pairwise.map summaryOf (fun a b h => h) htake

theorem session_list_semantics_witness :
    ∃ l, historyStep listStore21 (some "u") none (some 5) = .sessionList l
      ∧ l.length ≤ 20
      ∧ (∀ x ∈ l, ∃ e, e ∈ listStore21 ∧ e.2.userId = "u" ∧ x = summaryOf e)
      ∧ List.Sorted (fun a b => b.lastActivity ≤ a.lastActivity) l :=
  session_list_semantics listStore21 "u" (some 5)

/-- The all-pass default filter of `/genre-trends`
(`minEnergy=0, maxEnergy=1, minDanceability=0, maxDanceability=1,
minTempo=0, maxTempo=300`). -/
def defaultGenreFilter : GenreFilter :=
  ⟨0, 1, 0, 1, 0, 300⟩

/-- A track passing the default filter. -/
def cxTrack : AfroTrack :=
  ⟨"t", "a", "al", 0, 1, .scalar 1, 100⟩

/-- C9 counterexample: with `limit = -1` (a legal `parseInt` result) and 102
matching tracks, `.slice(0, limit)` keeps all but the last track, so 101
tracks are analyzed — more than 100 and more than `min(limit, 100)` —
contradicting "at most min(limit, 100) tracks are included". -/
theorem genre_trends_counterexample :
    (includedTracks (genreTrends (List.replicate 102 cxTrack) defaultGenreFilter
        (some (-1)))).map List.length = some 101
    ∧ ¬ (101 ≤ 100)
    ∧ ¬ ((101 : Int) ≤ min (-1) 100) := by
  refine ⟨by decide, by decide, by decide⟩

/-- C9 (amended): every track included by `/genre-trends` satisfies all six
audio-feature bounds, the empty filter result yields the 404 outcome, and for
NON-NEGATIVE parsed limits at most `min(limit, 100)` tracks (hence at most
100) are included; a negative parsed limit instead keeps all but the last
`|limit|` filtered tracks (the counterexample), which the amendment excludes
from the cap. -/
theorem genre_trends_filter
    (tracks : List AfroTrack) (f : GenreFilter) (limitQ : Option Int) :
    (∀ l, genreTrends tracks f limitQ = .ok l →
      ∀ t ∈ l, ∃ d, danceOf t.danceability = some d
        ∧ f.minEnergy ≤ t.energy ∧ t.energy ≤ f.maxEnergy
        ∧ f.minDanceability ≤ d ∧ d ≤ f.maxDanceability
        ∧ f.minTempo ≤ t.tempo ∧ t.tempo ≤ f.maxTempo)
    ∧ (0 ≤ limitQ.getD 50 →
        ∀ l, genreTrends tracks f limitQ = .ok l →
          l.length ≤ (min (limitQ.getD 50) 100).toNat ∧ l.length ≤ 100)
    ∧ (tracks.filter (trackMatches f) = [] →
        genreTrends tracks f limitQ = .notFound) := by
  refine ⟨?_, ?_, ?_⟩
  · intro l hl t ht
    unfold genreTrends at hl
    dsimp only at hl
    split at hl
    · exact absurd hl (by simp)
    · have hl' : jsSlice 0 (effLimit limitQ) (tracks.filter (trackMatches f)) = l := by
        simpa using hl
      rw [← hl', jsSlice_zero] at ht
      have h1 : t ∈ tracks.filter (trackMatches f) := List.mem_of_mem_take ht
      have h2 : trackMatches f t = true := (List.mem_filter.mp h1).2
      unfold trackMatches at h2
      cases hd : danceOf t.danceability with
      | none => rw [hd] at h2; simp at h2
      | some d =>
        rw [hd] at h2
        simp only [Bool.and_eq_true, decide_eq_true_eq] at h2
        exact ⟨d, rfl, h2.1.1.1.1.1, h2.1.1.1.1.2, h2.1.1.1.2, h2.1.1.2, h2.1.2, h2.2⟩
  · intro hpos l hl
    unfold genreTrends at hl
    dsimp only at hl
    split at hl
    · exact absurd hl (by simp)
    · have hl' : jsSlice 0 (effLimit limitQ) (tracks.filter (trackMatches f)) = l := by
        simpa using hl
      have hpos' : 0 ≤ effLimit limitQ := by
        unfold effLimit
        omega
      have hb := length_jsSlice_zero_le hpos'
        (tracks.filter (trackMatches f))
      rw [hl'] at hb
      constructor
      · exact hb
      · refine le_trans hb ?_
        unfold effLimit
        omega
  · intro hempty
    unfold genreTrends
    dsimp only
    rw [hempty]
    simp [jsSlice]

theorem genre_trends_filter_witness :
    ((∀ l, genreTrends [cxTrack] defaultGenreFilter none = .ok l →
      ∀ t ∈ l, ∃ d, danceOf t.danceability = some d
        ∧ defaultGenreFilter.minEnergy ≤ t.energy ∧ t.energy ≤ defaultGenreFilter.maxEnergy
        ∧ defaultGenreFilter.minDanceability ≤ d ∧ d ≤ defaultGenreFilter.maxDanceability
        ∧ defaultGenreFilter.minTempo ≤ t.tempo ∧ t.tempo ≤ defaultGenreFilter.maxTempo)
      ∧ (∀ l, genreTrends [cxTrack] defaultGenreFilter none = .ok l →
          l.length ≤ (min ((none : Option Int).getD 50) 100).toNat ∧ l.length ≤ 100))
    ∧ genreTrends [cxTrack] ⟨1, 0, 0, 1, 0, 300⟩ none = .notFound :=
  ⟨⟨(genre_trends_filter [cxTrack] defaultGenreFilter none).1,
    (genre_trends_filter [cxTrack] defaultGenreFilter none).2.1 (by decide)⟩,
    (genre_trends_filter [cxTrack] ⟨1, 0, 0, 1, 0, 300⟩ none).2.2 (by decide)⟩

/-- A session with 101 stored messages. -/
def bigSession : ChatSession :=
  ⟨"s", "u", List.replicate 101 ⟨.user, "m", 0⟩, 0, 0⟩

/-- C10 counterexample: requesting the transcript with `limit = 0` makes the
handler compute `messages.slice(-0) = messages.slice(0)`, i.e. the FULL
101-message history, so the response is computed over more than 100 items even
though the clamped limit `min(0, 100) = 0` is at most 100. -/
theorem limit_clamp_counterexample :
    (transcriptMessages (historyStep [("s", bigSession)] (some "u") (some "s")
        (some 0))).map List.length = some 101
    ∧ ¬ (101 ≤ 100) := by
  refine ⟨by decide, by decide⟩

/-- C10 (amended): the effective limit `min(parsed-or-50, 100)` never exceeds
100, and it does bound the computed items for well-behaved limits: the
`/trends` track selection holds at most 100 tracks whenever the parsed limit
is non-negative, and the `/chat/history` transcript holds at most 100 messages
whenever the parsed limit is positive. A zero or negative parsed limit escapes
the bound on the transcript branch (`slice(-limit)` stops truncating), which
the amendment excludes. -/
theorem limit_clamp :
    (∀ q : Option Int, effLimit q ≤ 100)
    ∧ (∀ (tracks : List AfroTrack) (q : Option Int), 0 ≤ q.getD 50 →
        (trendsTracksUsed tracks q).length ≤ 100)
    ∧ (∀ (store : Store) (uidOpt sidQ : Option String) (q : Option Int)
        (msgs : List ChatMessage), 0 < q.getD 50 →
        transcriptMessages (historyStep store uidOpt sidQ q) = some msgs →
        msgs.length ≤ 100) := by
  refine ⟨?_, ?_, ?_⟩
  · intro q
    unfold effLimit
    omega
  · intro tracks q hq
    unfold trendsTracksUsed getTopAfroTracks
    have h0 : 0 ≤ effLimit q := by unfold effLimit; omega
    refine le_trans (length_jsSlice_zero_le h0 _) ?_
    unfold effLimit
    omega
  · intro store uidOpt sidQ q msgs hq ht
    unfold historyStep at ht
    cases uidOpt with
    | none => simp [transcriptMessages] at ht
    | some uid =>
      dsimp only at ht
      have he : 0 < effLimit q := by unfold effLimit; omega
      rcases sidQ with _ | sid
      · simp [transcriptMessages] at ht
      · dsimp only at ht
        by_cases hsid : (sid == "") = true
        · rw [if_pos hsid] at ht
          simp [transcriptMessages] at ht
        · rw [if_neg hsid] at ht
          dsimp only at ht
          cases hg : mapGet store sid with
          | none => rw [hg] at ht; simp [transcriptMessages] at ht
          | some session =>
            rw [hg] at ht
            dsimp only at ht
            by_cases hown : (session.userId == uid) = true
            · rw [if_pos hown] at ht
              simp only [transcriptMessages, Option.some.injEq] at ht
              rw [← ht]
              have : jsSliceFrom (-(effLimit q)) session.messages =
                  session.messages.drop (session.messages.length - (effLimit q).toNat) :=
                jsSliceFrom_neg he session.messages
              rw [this, List.length_drop]
              unfold effLimit at *
              omega
            · rw [if_neg hown] at ht
              simp [transcriptMessages] at ht

theorem limit_clamp_witness :
    effLimit (some 500) ≤ 100
    ∧ (trendsTracksUsed (List.replicate 150 cxTrack) (some 500)).length ≤ 100
    ∧ (∀ msgs, transcriptMessages (historyStep [("s", bigSession)] (some "u") (some "s")
        (some 7)) = some msgs → msgs.length ≤ 100) :=
  ⟨limit_clamp.1 (some 500),
    limit_clamp.2.1 (List.replicate 150 cxTrack) (some 500) (by decide),
    fun msgs h => limit_clamp.2.2 [("s", bigSession)] (some "u") (some "s") (some 7)
      msgs (by decide) h⟩

/-- Projection of the session id of a successful `/chat` response. -/
def chatOutcomeSessionId : ChatOutcome → Option String
  | .ok r => some r.sessionId
  | _ => none

/-- C3 counterexample: two no-`sessionId` chat requests by the same user
within the same millisecond (`Date.now() = 5`) generate THE SAME id
`chat_u_5`; the second request adopts the first request's session (the store
still holds a single session, now with 4 messages) instead of allocating a
distinct one. -/
theorem session_id_collision_counterexample :
    chatOutcomeSessionId (chatStep (chatStep [] (some "u") (some "p") none 5 "a").2
        (some "u") (some "p") none 5 "a").1 =
      chatOutcomeSessionId (chatStep [] (some "u") (some "p") none 5 "a").1
    ∧ chatOutcomeSessionId (chatStep [] (some "u") (some "p") none 5 "a").1 =
        some (genSessionId "u" 5)
    ∧ (chatStep (chatStep [] (some "u") (some "p") none 5 "a").2
        (some "u") (some "p") none 5 "a").2.length = 1
    ∧ (mapGet (chatStep (chatStep [] (some "u") (some "p") none 5 "a").2
        (some "u") (some "p") none 5 "a").2 (genSessionId "u" 5)).map
        (fun s => s.messages.length) = some 4 := by
  refine ⟨by decide, by decide, by decide, by decide⟩

/-- C3 (amended): generated session ids embed both the user id and the
generating millisecond, so ids generated for the same user at DISTINCT
`Date.now()` values are distinct, ids generated for DISTINCT users are always
distinct (the timestamp suffix contains no underscore, so the id determines
the user/timestamp pair), and a second no-`sessionId` request at a different
millisecond allocates its own fresh session (two sessions in the store, the
new one holding exactly its own two messages) instead of adopting the first
request's session. Two allocations by the same user within the same
millisecond collide (see the counterexample), which the amendment excludes. -/
theorem session_id_distinct_times
    (u p1 p2 a1 a2 : String) (t1 t2 : Nat) (hne : t1 ≠ t2)
    (hp1 : p1 ≠ "") (hp2 : p2 ≠ "") :
    genSessionId u t1 ≠ genSessionId u t2
    ∧ (∀ (v1 v2 : String) (s1 s2 : Nat), v1 ≠ v2 →
        genSessionId v1 s1 ≠ genSessionId v2 s2)
    ∧ (chatStep (chatStep [] (some u) (some p1) none t1 a1).2
        (some u) (some p2) none t2 a2).2.length = 2
    ∧ (mapGet (chatStep (chatStep [] (some u) (some p1) none t1 a1).2
        (some u) (some p2) none t2 a2).2 (genSessionId u t2)).map
        (fun s => (s.messages.length, s.userId, s.createdAt)) = some (2, u, t2) := by
  have hGne : genSessionId u t1 ≠ genSessionId u t2 :=
    fun h => hne (genSessionId_inj_time h)
  have hb : (genSessionId u t1 == genSessionId u t2) = false :=
    beq_eq_false_iff_ne.mpr hGne
  have hp1' : (p1 == "") = false := beq_eq_false_iff_ne.mpr hp1
  have hp2' : (p2 == "") = false := beq_eq_false_iff_ne.mpr hp2
  have hGne2 : genSessionId u t2 ≠ genSessionId u t1 := Ne.symm hGne
  have hb2 : (genSessionId u t2 == genSessionId u t1) = false :=
    beq_eq_false_iff_ne.mpr hGne2
  refine ⟨hGne, fun v1 v2 s1 s2 hv hc => hv (genSessionId_inj hc).1, ?_, ?_⟩
  · rcases lt_or_gt_of_ne hne with hlt | hlt
    · have hx : ¬ (t2 ≤ t1) := by omega
      simp [chatStep, getOrCreate, effectiveSessionId, mapGet, mapSet, retainLatest,
        contextWindow, jsSliceFrom, jsSlice, jsRelIndex, List.insertionSort,
        List.orderedInsert, byActivityDesc, hb, hb2, hGne, hGne2, hp1', hp2',
        hx, List.find?]
    · have hx : t2 ≤ t1 := by omega
      simp [chatStep, getOrCreate, effectiveSessionId, mapGet, mapSet, retainLatest,
        contextWindow, jsSliceFrom, jsSlice, jsRelIndex, List.insertionSort,
        List.orderedInsert, byActivityDesc, hb, hb2, hGne, hGne2, hp1', hp2',
        hx, List.find?]
  · rcases lt_or_gt_of_ne hne with hlt | hlt
    · have hx : ¬ (t2 ≤ t1) := by omega
      simp [chatStep, getOrCreate, effectiveSessionId, mapGet, mapSet, retainLatest,
        contextWindow, jsSliceFrom, jsSlice, jsRelIndex, List.insertionSort,
        List.orderedInsert, byActivityDesc, hb, hb2, hGne, hGne2, hp1', hp2',
        hx, List.find?]
    · have hx : t2 ≤ t1 := by omega
      simp [chatStep, getOrCreate, effectiveSessionId, mapGet, mapSet, retainLatest,
        contextWindow, jsSliceFrom, jsSlice, jsRelIndex, List.insertionSort,
        List.orderedInsert, byActivityDesc, hb, hb2, hGne, hGne2, hp1', hp2',
        hx, List.find?]

theorem session_id_distinct_times_witness :
    genSessionId "u" 1 ≠ genSessionId "u" 2
    ∧ genSessionId "u" 1 ≠ genSessionId "v" 1
    ∧ (chatStep (chatStep [] (some "u") (some "p") none 1 "a").2
        (some "u") (some "p") none 2 "a").2.length = 2
    ∧ (mapGet (chatStep (chatStep [] (some "u") (some "p") none 1 "a").2
        (some "u") (some "p") none 2 "a").2 (genSessionId "u" 2)).map
        (fun s => (s.messages.length, s.userId, s.createdAt)) = some (2, "u", 2) :=
  ⟨(session_id_distinct_times "u" "p" "p" "a" "a" 1 2 (by decide) (by decide)
      (by decide)).1,
    (session_id_distinct_times "u" "p" "p" "a" "a" 1 2 (by decide) (by decide)
      (by decide)).2.1 "u" "v" 1 1 (by decide),
    (session_id_distinct_times "u" "p" "p" "a" "a" 1 2 (by decide) (by decide)
      (by decide)).2.2.1,
    (session_id_distinct_times "u" "p" "p" "a" "a" 1 2 (by decide) (by decide)
      (by decide)).2.2.2⟩

theorem entry_eq_of_keys_nodup {store : Store} {a b : String × ChatSession}
    (hnd : (keys store).Nodup) (ha : a ∈ store) (hb : b ∈ store) (hk : a.1 = b.1) :
    a = b :=
  List.inj_on_of_nodup_map hnd ha hb hk

theorem nodup_of_keys_nodup {store : Store} (hnd : (keys store).Nodup) : store.Nodup :=
  List.Nodup.of_map Prod.fst hnd

/-- General description of one retention sweep: writing `n` for the number of
the owner's sessions before the sweep, exactly `min 100 n` of them survive,
every retained entry is an entry of the original store, and every evicted
owner session has `lastActivity` at most that of every surviving owner
session (the sweep keeps the most recently active ones). -/
theorem retainLatest_spec (store : Store) (uid : String)
    (hnd : (keys store).Nodup) :
    ((retainLatest uid store).filter (fun e => e.2.userId == uid)).length =
      min 100 ((store.filter (fun e => e.2.userId == uid)).length)
    ∧ (∀ e ∈ retainLatest uid store, e ∈ store)
    ∧ (∀ k ∈ (retainLatest uid store).filter (fun e => e.2.userId == uid),
        ∀ d ∈ store.filter (fun e => e.2.userId == uid), d ∉ retainLatest uid store →
          d.2.lastActivity ≤ k.2.lastActivity) := by
  have hperm : (List.insertionSort byActivityDesc
      (store.filter (fun e => e.2.userId == uid))).Perm
      (store.filter (fun e => e.2.userId == uid)) :=
    List.perm_insertionSort byActivityDesc _
  have hsorted : List.Sorted byActivityDesc
      (List.insertionSort byActivityDesc (store.filter (fun e => e.2.userId == uid))) :=
    List.sorted_insertionSort byActivityDesc _
  have hndus : (List.insertionSort byActivityDesc
      (store.filter (fun e => e.2.userId == uid))).Nodup :=
    hperm.nodup_iff.mpr ((nodup_of_keys_nodup hnd).filter _)
  unfold retainLatest
  dsimp only
  by_cases hlen : 100 < (List.insertionSort byActivityDesc
      (store.filter (fun e => e.2.userId == uid))).length
  · rw [if_pos hlen]
    set us := List.insertionSort byActivityDesc
      (store.filter (fun e => e.2.userId == uid)) with hus
    set evict := (us.drop 100).map Prod.fst with hevict
    have hmem_drop_of_evict : ∀ e ∈ store, e.1 ∈ evict → e ∈ us.drop 100 := by
      intro e he hee
      rcases List.mem_map.mp hee with ⟨d, hd, hd1⟩
      have hdus : d ∈ us := List.mem_of_mem_drop hd
      have hdstore : d ∈ store :=
        (List.mem_filter.mp (hperm.subset hdus)).1
      have : d = e := entry_eq_of_keys_nodup hnd hdstore he hd1
      rwa [this] at hd
    have hfilter_comm :
        ((store.filter (fun e => !(evict.contains e.1))).filter
          (fun e => e.2.userId == uid)) =
        ((store.filter (fun e => e.2.userId == uid)).filter
          (fun e => !(evict.contains e.1))) :=
      List.filter_comm _ _ _
    have howner_perm :
        ((store.filter (fun e => e.2.userId == uid)).filter
          (fun e => !(evict.contains e.1))).Perm
        (us.filter (fun e => !(evict.contains e.1))) :=
      (hperm.filter _).symm
    have hdrop_filter :
        (us.drop 100).filter (fun e => !(evict.contains e.1)) = [] := by
      rw [List.filter_eq_nil_iff]
      intro e he
      have : e.1 ∈ evict := List.mem_map_of_mem Prod.fst he
      simp [this]
    have htake_filter :
        (us.take 100).filter (fun e => !(evict.contains e.1)) = us.take 100 := by
      rw [List.filter_eq_self]
      intro e he
      have hne : e.1 ∉ evict := by
        intro hee
        rcases List.mem_map.mp hee with ⟨d, hd, hd1⟩
        have hds : d ∈ store := (List.mem_filter.mp (hperm.subset (List.mem_of_mem_drop hd))).1
        have hes : e ∈ store := (List.mem_filter.mp (hperm.subset (List.mem_of_mem_take he))).1
        have hde : d = e := entry_eq_of_keys_nodup hnd hds hes hd1
        exact (List.disjoint_take_drop hndus (le_refl 100)) he (hde ▸ hd)
      simp [hne]
    have hsplit : us.filter (fun e => !(evict.contains e.1)) = us.take 100 := by
      conv_lhs => rw [← List.take_append_drop 100 us]
      rw [List.filter_append, hdrop_filter, htake_filter, List.append_nil]
    refine ⟨?_, ?_, ?_⟩
    · rw [hfilter_comm, howner_perm.length_eq, hsplit, List.length_take,
        hperm.length_eq]
    · intro e he
      exact (List.mem_filter.mp he).1
    · intro k hk d hd hdnot
      rw [hfilter_comm] at hk
      have hkus : k ∈ us.take 100 := hsplit ▸ howner_perm.subset hk
      have hds : d ∈ store := (List.mem_filter.mp hd).1
      have hdev : d.1 ∈ evict := by
        by_contra hno
        refine hdnot (List.mem_filter.mpr ⟨hds, ?_⟩)
        simpa using hno
      have hddrop : d ∈ us.drop 100 := hmem_drop_of_evict d hds hdev
      exact hsorted.rel_of_mem_take_of_mem_drop hkus hddrop
  · rw [if_neg hlen]
    refine ⟨?_, fun e he => he, ?_⟩
    · rw [hperm.length_eq] at hlen
      omega
    · intro k hk d hd hdnot
      exact absurd (List.mem_filter.mp hd).1 hdnot

theorem string_append_repr_inj {pre : String} {t1 t2 : Nat}
    (h : pre ++ Nat.repr t1 = pre ++ Nat.repr t2) : t1 = t2 := by
  have hdata := congrArg String.data h
  simp only [String.data_append] at hdata
  exact repr_injective (String.ext (List.append_cancel_left hdata))

/-- The session id supplied by the `i`-th request of the retention scenario. -/
def scenSid (i : Nat) : String :=
  "s" ++ toString i

/-- The store entry the `i`-th scenario request leaves behind: session `sᵢ`,
owner `"u"`, one user/assistant message pair, created and last active at
time `i + 1`. -/
def scenEntry (i : Nat) : String × ChatSession :=
  (scenSid i, ⟨scenSid i, "u", [⟨.user, "p", i + 1⟩, ⟨.assistant, "r", i + 1⟩],
    i + 1, i + 1⟩)

/-- The store after the first `k` scenario requests (for `k ≤ 100`). -/
def scenStore (k : Nat) : Store :=
  (List.range k).map scenEntry

/-- The claimed scenario: 101 distinct sessions created sequentially for one
owner, each with one append, at strictly increasing times. -/
def retentionScenario : Store :=
  (List.range 101).foldl
    (fun st i => (chatStep st (some "u") (some "p") (some (scenSid i)) (i + 1) "r").2) []

theorem scenSid_inj {i j : Nat} (h : scenSid i = scenSid j) : i = j :=
  string_append_repr_inj h

theorem scenSid_ne_empty (i : Nat) : scenSid i ≠ "" := by
  intro h
  have := congrArg String.data h
  simp [scenSid, String.data_append] at this

theorem mapGet_scenStore_fresh {k : Nat} : mapGet (scenStore k) (scenSid k) = none := by
  rw [mapGet_eq_none_iff]
  intro e he
  rcases List.mem_map.mp he with ⟨i, hi, rfl⟩
  have : i < k := List.mem_range.mp hi
  exact fun hc => absurd (scenSid_inj hc) (by omega)

theorem mapSet_append_self {store : Store} {k : String} {v v' : ChatSession}
    (h : ∀ e ∈ store, (e.1 == k) = false) :
    mapSet (store ++ [(k, v)]) k v' = store ++ [(k, v')] := by
  have hnone : store.find? (fun e => e.1 == k) = none :=
    List.find?_eq_none.mpr (fun e he => by simp [h e he])
  have hfind : ((store ++ [(k, v)]).find? (fun e => e.1 == k)).isSome = true := by
    rw [List.find?_append, hnone]
    simp [List.find?]
  unfold mapSet
  rw [if_pos hfind, List.map_append]
  congr 1
  · have h1 : List.map (fun e => if (e.1 == k) = true then (k, v') else e) store =
        List.map id store :=
      List.map_congr_left (fun e he => by
        rw [if_neg (by simp [h e he])]
        rfl)
    rw [h1, List.map_id]
  · simp

theorem chatStep_fresh {store : Store} {uid prompt : String} {sidOpt : Option String}
    {now : Nat} {ai : String} (hp : prompt ≠ "")
    (h : mapGet store (effectiveSessionId uid sidOpt now) = none) :
    (chatStep store (some uid) (some prompt) sidOpt now ai).2 =
      retainLatest uid (store ++ [(effectiveSessionId uid sidOpt now,
        ⟨effectiveSessionId uid sidOpt now, uid,
          [⟨.user, prompt, now⟩, ⟨.assistant, ai, now⟩], now, now⟩)]) := by
  have habs : ∀ e ∈ store, (e.1 == effectiveSessionId uid sidOpt now) = false :=
    fun e he => beq_eq_false_iff_ne.mpr (mapGet_eq_none_iff.mp h e he)
  rw [chatStep_eq store uid prompt sidOpt now ai hp]
  dsimp only
  rw [getOrCreate_of_fresh h]
  dsimp only
  rw [mapSet_of_absent h, mapSet_append_self habs, mapSet_append_self habs]
  rfl

theorem retainLatest_of_count_le {uid : String} {store : Store}
    (h : (store.filter (fun e => e.2.userId == uid)).length ≤ 100) :
    retainLatest uid store = store := by
  unfold retainLatest
  dsimp only
  rw [if_neg]
  intro hlt
  rw [(List.perm_insertionSort byActivityDesc _).length_eq] at hlt
  omega

theorem scenStore_filter_owner (k : Nat) :
    (scenStore k).filter (fun e => e.2.userId == "u") = scenStore k := by
  rw [List.filter_eq_self]
  intro e he
  rcases List.mem_map.mp he with ⟨i, _, rfl⟩
  rfl

theorem length_scenStore (k : Nat) : (scenStore k).length = k := by
  simp [scenStore]

theorem scenStep (k : Nat) :
    (chatStep (scenStore k) (some "u") (some "p") (some (scenSid k)) (k + 1) "r").2 =
      retainLatest "u" (scenStore (k + 1)) := by
  have heff : effectiveSessionId "u" (some (scenSid k)) (k + 1) = scenSid k := by
    unfold effectiveSessionId
    dsimp only
    rw [if_neg]
    simp [scenSid_ne_empty k]
  have hfresh : mapGet (scenStore k)
      (effectiveSessionId "u" (some (scenSid k)) (k + 1)) = none := by
    rw [heff]
    exact mapGet_scenStore_fresh
  rw [chatStep_fresh (by decide) hfresh, heff]
  have hstore : scenStore k ++ [scenEntry k] = scenStore (k + 1) := by
    unfold scenStore
    rw [List.range_succ k, List.map_append]
    rfl
  rw [show ((scenSid k, (⟨scenSid k, "u", [⟨.user, "p", k + 1⟩, ⟨.assistant, "r", k + 1⟩],
      k + 1, k + 1⟩ : ChatSession)) : String × ChatSession) = scenEntry k from rfl, hstore]

theorem scenFold : ∀ k, k ≤ 100 →
    (List.range k).foldl
      (fun st i => (chatStep st (some "u") (some "p") (some (scenSid i)) (i + 1) "r").2) []
      = scenStore k := by
  intro k
  induction k with
  | zero => intro _; rfl
  | succ k ih =>
    intro hk
    rw [List.range_succ k, List.foldl_append, ih (by omega), List.foldl_cons,
      List.foldl_nil, scenStep k]
    exact retainLatest_of_count_le (by rw [scenStore_filter_owner, length_scenStore]; omega)

theorem retainLatest_scenStore101 :
    retainLatest "u" (scenStore 101) = (List.range 100).map (fun i => scenEntry (i + 1)) := by
  have hperm : (List.insertionSort byActivityDesc
      ((scenStore 101).filter (fun e => e.2.userId == "u"))).Perm
      ((scenStore 101).filter (fun e => e.2.userId == "u")) :=
    List.perm_insertionSort byActivityDesc _
  have hsorted := List.sorted_insertionSort byActivityDesc
    ((scenStore 101).filter (fun e => e.2.userId == "u"))
  unfold retainLatest
  dsimp only
  set us := List.insertionSort byActivityDesc
    ((scenStore 101).filter (fun e => e.2.userId == "u")) with hus
  have hlen : us.length = 101 := by
    rw [hperm.length_eq, scenStore_filter_owner, length_scenStore]
  rw [if_pos (by omega : us.length > 100)]
  have hdlen : (us.drop 100).length = 1 := by
    rw [List.length_drop]
    omega
  obtain ⟨x, hx⟩ := List.length_eq_one.mp hdlen
  have hxus : x ∈ us := List.mem_of_mem_drop (hx ▸ List.mem_singleton_self x)
  have hxmem : x ∈ scenStore 101 := by
    have := hperm.subset hxus
    rw [scenStore_filter_owner] at this
    exact this
  obtain ⟨j, hj, hxj⟩ := List.mem_map.mp hxmem
  have hj0 : j = 0 := by
    by_contra hj0
    have h0mem : scenEntry 0 ∈ us := by
      refine hperm.mem_iff.mpr ?_
      rw [scenStore_filter_owner]
      exact List.mem_map.mpr ⟨0, List.mem_range.mpr (by omega), rfl⟩
    have hsplit : scenEntry 0 ∈ us.take 100 ∨ scenEntry 0 ∈ us.drop 100 := by
      rw [← List.take_append_drop 100 us] at h0mem
      exact List.mem_append.mp h0mem
    rcases hsplit with h0t | h0d
    · have hrel := hsorted.rel_of_mem_take_of_mem_drop h0t
        (hx ▸ List.mem_singleton_self x)
      rw [← hxj] at hrel
      unfold byActivityDesc at hrel
      simp [scenEntry] at hrel
      omega
    · rw [hx] at h0d
      have h0x : scenEntry 0 = x := List.mem_singleton.mp h0d
      rw [← hxj] at h0x
      exact hj0 (scenSid_inj (congrArg Prod.fst h0x)).symm
  have hevict : (us.drop 100).map Prod.fst = [scenSid 0] := by
    rw [hx, ← hxj, hj0]
    rfl
  rw [hevict]
  have hdecomp : scenStore 101 = scenEntry 0 :: (List.range 100).map (fun i => scenEntry (i + 1)) := by
    unfold scenStore
    rw [List.range_succ_eq_map 100, List.map_cons, List.map_map]
    rfl
  rw [hdecomp, List.filter_cons]
  have hhead : (!(([scenSid 0] : List String).contains (scenEntry 0).1)) = false := by
    simp [scenEntry]
  rw [hhead]
  simp only [Bool.false_eq_true, if_false]
  rw [List.filter_eq_self]
  intro e he
  rcases List.mem_map.mp he with ⟨i, _, rfl⟩
  have : scenSid (i + 1) ≠ scenSid 0 := fun hc => by
    have := scenSid_inj hc
    omega
  simp [scenEntry, List.contains, this]

theorem retentionScenario_eq :
    retentionScenario = (List.range 100).map (fun i => scenEntry (i + 1)) := by
  unfold retentionScenario
  rw [List.range_succ 100, List.foldl_append, scenFold 100 (by omega), List.foldl_cons,
    List.foldl_nil, scenStep 100, retainLatest_scenStore101]

theorem mapGet_retentionScenario_first : mapGet retentionScenario (scenSid 0) = none := by
  rw [retentionScenario_eq, mapGet_eq_none_iff]
  intro e he
  rcases List.mem_map.mp he with ⟨i, _, rfl⟩
  exact fun hc => by
    have := scenSid_inj hc
    omega

/-- C1: immediately after the retention sweep that runs inside each append,
the owner keeps exactly `min 100 n` of their `n` sessions (so never more than
100), every surviving entry was in the store, and every evicted session of the
owner was no more recently active than any survivor — the sweep retains the
most recently active sessions. In particular, in the 101-sessions-one-owner
scenario the store ends with exactly the 100 later sessions and the
first-created (least recently active) session is gone. -/
theorem retention_cap :
    (∀ (store : Store) (uid : String), (keys store).Nodup →
      ((retainLatest uid store).filter (fun e => e.2.userId == uid)).length =
        min 100 ((store.filter (fun e => e.2.userId == uid)).length)
      ∧ (∀ e ∈ retainLatest uid store, e ∈ store)
      ∧ (∀ k ∈ (retainLatest uid store).filter (fun e => e.2.userId == uid),
          ∀ d ∈ store.filter (fun e => e.2.userId == uid), d ∉ retainLatest uid store →
            d.2.lastActivity ≤ k.2.lastActivity))
    ∧ retentionScenario = (List.range 100).map (fun i => scenEntry (i + 1))
    ∧ mapGet retentionScenario (scenSid 0) = none :=
  ⟨fun store uid hnd => retainLatest_spec store uid hnd,
    retentionScenario_eq, mapGet_retentionScenario_first⟩

theorem retention_cap_witness :
    ((retainLatest "u" listStore21).filter (fun e => e.2.userId == "u")).length =
      min 100 ((listStore21.filter (fun e => e.2.userId == "u")).length)
    ∧ (∀ e ∈ retainLatest "u" listStore21, e ∈ listStore21)
    ∧ (∀ k ∈ (retainLatest "u" listStore21).filter (fun e => e.2.userId == "u"),
        ∀ d ∈ listStore21.filter (fun e => e.2.userId == "u"),
          d ∉ retainLatest "u" listStore21 → d.2.lastActivity ≤ k.2.lastActivity) :=
  retention_cap.1 listStore21 "u" (by decide)

theorem deleteStep_snd_cases (store : Store) (u s : Option String) :
    (deleteStep store u s).2 = store ∨
      ∃ k, (deleteStep store u s).2 = mapDelete store k := by
  unfold deleteStep
  cases u with
  | none => exact Or.inl rfl
  | some uid =>
    dsimp only
    cases s with
    | none => exact Or.inl rfl
    | some sid =>
      dsimp only
      by_cases hsid : (sid == "") = true
      · rw [if_pos hsid]
        exact Or.inl rfl
      · rw [if_neg hsid]
        dsimp only
        cases hg : mapGet store sid with
        | none => exact Or.inl rfl
        | some sess =>
          dsimp only
          by_cases hown : (sess.userId == uid) = true
          · rw [if_pos hown]
            exact Or.inr ⟨sid, rfl⟩
          · rw [if_neg hown]
            exact Or.inl rfl

theorem chatStep_snd_failure (store : Store) (uidOpt promptOpt sidOpt : Option String)
    (now : Nat) (ai : String)
    (h : promptOpt = none ∨ promptOpt = some "" ∨ uidOpt = none) :
    (chatStep store uidOpt promptOpt sidOpt now ai).2 = store := by
  rcases h with rfl | rfl | rfl
  · rfl
  · cases uidOpt <;> rfl
  · cases promptOpt with
    | none => rfl
    | some p =>
      unfold chatStep
      dsimp only
      by_cases hp : (p == "") = true
      · rw [if_pos hp]
      · rw [if_neg hp]

/-- C6: across any single store operation (chat append, history read, session
delete), a session that is still present afterwards never loses messages and
its `lastActivity` never decreases (requests observe a clock that is at least
every stored `lastActivity`); moreover a successful chat request leaves the
touched session with `lastActivity` equal to the request's `now` and with the
two appended messages counted in the response. -/
theorem append_monotonicity
    (op : Op) (store : Store) (hnd : (keys store).Nodup)
    (hclock : ∀ t, opNow op = some t → ∀ e ∈ store, e.2.lastActivity ≤ t) :
    (∀ sid s s', mapGet store sid = some s → mapGet (applyOp op store) sid = some s' →
      s.messages.length ≤ s'.messages.length ∧ s.lastActivity ≤ s'.lastActivity)
    ∧ (∀ uid prompt sidOpt now ai r s',
        op = .chat (some uid) (some prompt) sidOpt now ai →
        (chatStep store (some uid) (some prompt) sidOpt now ai).1 = .ok r →
        mapGet (applyOp op store) r.sessionId = some s' →
        s'.lastActivity = now ∧ s'.messages.length = r.messageCount) := by
  constructor
  · intro sid s s' hs hs'
    cases op with
    | history u q l =>
      have : s' = s := by
        have : mapGet store sid = some s' := hs'
        rw [hs] at this
        exact (Option.some.injEq _ _).mp this.symm
      rw [this]
      exact ⟨le_refl _, le_refl _⟩
    | del u sq =>
      have happ : applyOp (.del u sq) store = (deleteStep store u sq).2 := rfl
      rcases deleteStep_snd_cases store u sq with hsame | ⟨k, hdel⟩
      · rw [happ, hsame, hs] at hs'
        have : s' = s := (Option.some.injEq _ _).mp hs'.symm
        rw [this]
        exact ⟨le_refl _, le_refl _⟩
      · rw [happ, hdel] at hs'
        by_cases hks : sid = k
        · rw [hks, mapGet_mapDelete_self] at hs'
          exact absurd hs' (by simp)
        · rw [mapGet_mapDelete_ne hks, hs] at hs'
          have : s' = s := (Option.some.injEq _ _).mp hs'.symm
          rw [this]
          exact ⟨le_refl _, le_refl _⟩
    | chat uidOpt promptOpt sidOpt now ai =>
      have happ : applyOp (.chat uidOpt promptOpt sidOpt now ai) store =
          (chatStep store uidOpt promptOpt sidOpt now ai).2 := rfl
      rcases uidOpt with _ | uid
      · rw [happ, chatStep_snd_failure store _ _ _ _ _ (Or.inr (Or.inr rfl)), hs] at hs'
        have : s' = s := (Option.some.injEq _ _).mp hs'.symm
        rw [this]; exact ⟨le_refl _, le_refl _⟩
      · rcases promptOpt with _ | prompt
        · rw [happ, chatStep_snd_failure store _ _ _ _ _ (Or.inl rfl), hs] at hs'
          have : s' = s := (Option.some.injEq _ _).mp hs'.symm
          rw [this]; exact ⟨le_refl _, le_refl _⟩
        · by_cases hp : prompt = ""
          · rw [happ, hp, chatStep_snd_failure store _ _ _ _ _ (Or.inr (Or.inl rfl)),
              hs] at hs'
            have : s' = s := (Option.some.injEq _ _).mp hs'.symm
            rw [this]; exact ⟨le_refl _, le_refl _⟩
          · rw [happ, chatStep_eq store uid prompt sidOpt now ai hp] at hs'
            dsimp only at hs'
            have hnd3 : (keys (mapSet
                (mapSet (getOrCreate store uid sidOpt now).2
                  (effectiveSessionId uid sidOpt now)
                  { (getOrCreate store uid sidOpt now).1 with
                      lastActivity := now
                      messages := (getOrCreate store uid sidOpt now).1.messages ++
                        [(⟨.user, prompt, now⟩ : ChatMessage)] })
                (effectiveSessionId uid sidOpt now)
                { (getOrCreate store uid sidOpt now).1 with
                    lastActivity := now
                    messages := ((getOrCreate store uid sidOpt now).1.messages ++
                      [(⟨.user, prompt, now⟩ : ChatMessage)]) ++
                      [(⟨.assistant, ai, now⟩ : ChatMessage)] })).Nodup :=
              nodup_keys_mapSet (nodup_keys_mapSet (nodup_keys_getOrCreate hnd))
            have h3 := mapGet_retainLatest_some hnd3 hs'
            by_cases hc : sid = effectiveSessionId uid sidOpt now
            · rw [hc, mapGet_mapSet_self] at h3
              have hs'' := (Option.some.injEq _ _).mp h3.symm
              have hgc : (getOrCreate store uid sidOpt now).1 = s := by
                have := getOrCreate_of_found (hc ▸ hs)
                rw [this]
              rw [hs'']
              dsimp only
              rw [hgc]
              constructor
              · simp
              · exact hclock now rfl (sid, s) (mem_of_mapGet_eq_some hs)
            · rw [mapGet_mapSet_ne hc, mapGet_mapSet_ne hc,
                mapGet_getOrCreate_ne hc, hs] at h3
              have : s' = s := (Option.some.injEq _ _).mp h3.symm
              rw [this]
              exact ⟨le_refl _, le_refl _⟩
  · intro uid prompt sidOpt now ai r s' hop hok hs'
    have hp : prompt ≠ "" := by
      intro hp0
      rw [hp0] at hok
      have := chatStep_eq store uid "" sidOpt now ai
      unfold chatStep at hok
      simp at hok
    rw [chatStep_eq store uid prompt sidOpt now ai hp] at hok
    dsimp only at hok
    have hr := (ChatOutcome.ok.injEq _ _).mp hok
    subst hop
    have happ : applyOp (.chat (some uid) (some prompt) sidOpt now ai) store =
        (chatStep store (some uid) (some prompt) sidOpt now ai).2 := rfl
    rw [happ, chatStep_eq store uid prompt sidOpt now ai hp] at hs'
    rw [← hr] at hs'
    dsimp only at hs'
    have hv := mapGet_retain_set_self
      (nodup_keys_mapSet (nodup_keys_getOrCreate hnd)) hs'
    rw [hv, ← hr]
    dsimp only
    refine ⟨rfl, ?_⟩
    simp

theorem append_monotonicity_witness :
    (∀ sid s s', mapGet [("a", ⟨"a", "u", [⟨.user, "x", 0⟩], 0, 0⟩)] sid = some s →
      mapGet (applyOp (.chat (some "u") (some "p") (some "a") 3 "r")
        [("a", ⟨"a", "u", [⟨.user, "x", 0⟩], 0, 0⟩)]) sid = some s' →
      s.messages.length ≤ s'.messages.length ∧ s.lastActivity ≤ s'.lastActivity)
    ∧ (∀ uid prompt sidOpt now ai r s',
        (Op.chat (some "u") (some "p") (some "a") 3 "r") =
          .chat (some uid) (some prompt) sidOpt now ai →
        (chatStep [("a", ⟨"a", "u", [⟨.user, "x", 0⟩], 0, 0⟩)]
          (some uid) (some prompt) sidOpt now ai).1 = .ok r →
        mapGet (applyOp (.chat (some "u") (some "p") (some "a") 3 "r")
          [("a", ⟨"a", "u", [⟨.user, "x", 0⟩], 0, 0⟩)]) r.sessionId = some s' →
        s'.lastActivity = now ∧ s'.messages.length = r.messageCount) :=
  append_monotonicity (.chat (some "u") (some "p") (some "a") 3 "r")
    [("a", ⟨"a", "u", [⟨.user, "x", 0⟩], 0, 0⟩)] (by decide)
    (by intro t ht e he; cases ht; simp at he; rw [he]; decide)

end AfriSight
